import Mathlib

/-!
Verification development for the Mosquitoes-Classification-Models repository.

The four model files (`Models/AST.py`, `Models/LSTM.py`, `Models/MLP.py`,
`Models/ResidualModel.py`) share a windowed feature-extraction pipeline, a
class balancer and a k-fold cross-validation trainer.  This file gives a
shallow embedding of those parts in Lean and proves/refutes the frozen
claims about them.  Numeric values are modelled by rationals (the source
uses floating point; every property settled here is a structural/counting
or exact-zero property that does not depend on rounding).
-/

namespace Mosq

/-! ## Python primitives -/

/-- Python slice `xs[a:b]` for `0 ≤ a ≤ b` (clamps at the end of the list,
as Python slicing does). -/
def listSlice (xs : List ℚ) (a b : Nat) : List ℚ :=
  (xs.drop a).take (b - a)

/-- Python `range(0, stop, step)` for a positive `step`: the list
`[0, step, 2*step, ...)` below `stop`.  (Python raises for `step = 0`;
this embedding returns `[]` there, a case never reached by the code
modelled below, which always calls it with a positive step.) -/
def pyRangeUp (stop step : Nat) : List Nat :=
  (List.range ((stop + step - 1) / step)).map (· * step)

/-- Python integer floor division `a // b`, which raises
`ZeroDivisionError` when `b = 0` (modelled by `none`).  For `b ≠ 0` it
floors toward negative infinity, which is `Int.fdiv`. -/
def pyFloorDiv (a b : Int) : Option Int :=
  if b = 0 then none else some (Int.fdiv a b)

/-! ## Windowing utility

`AudioAST.windows` (`Models/AST.py` lines 432–454), identical in
`Models/LSTM.py`, `Models/MLP.py` and `Models/ResidualModel.py`:

    start = 0
    while start < len(data):
        yield start, start + window_size
        start += (window_size // overlap)

`windowsFrom L ws step start` is the list of `(start, end)` pairs the
generator yields from state `start` over data of length `L`, where
`step = window_size // overlap`.  The source loop does not terminate when
`step = 0` (it re-yields the same window forever); the embedding returns
`[]` in that branch, which no theorem below relies on — every statement
about `windowsFrom` assumes `0 < step`. -/
def windowsFrom (L ws step : Nat) (start : Nat) : List (Nat × Nat) :=
  if _h : start < L then
    if 0 < step then
      (start, start + ws) :: windowsFrom L ws step (start + step)
    else []
  else []
termination_by L - start
decreasing_by omega

/-- The `windows(data, window_size, overlap)` generator, run to completion:
the step is `window_size // overlap` (Nat division coincides with Python
floor division on nonnegative arguments). -/
def windows (L ws overlap : Nat) : List (Nat × Nat) :=
  windowsFrom L ws (ws / overlap) 0

/-- The windows generator observed together with its fault behaviour:
each loop iteration yields `(start, start + ws)` and then evaluates the
step expression `window_size // overlap`, which raises a division fault
when `overlap = 0` (`pyFloorDiv` returns `none`).  `fuel` bounds the
number of iterations observed (the source loop is unbounded; for a
non-positive step it never terminates and never faults). -/
def windowsIter (L : Nat) (ws ov : Int) : Nat → Int → Except Unit (List (Int × Int))
  | 0, _ => .ok []
  | fuel + 1, start =>
    if start < (L : Int) then
      match pyFloorDiv ws ov with
      | none => .error ()
      | some step =>
        match windowsIter L ws ov fuel (start + step) with
        | .error e => .error e
        | .ok rest => .ok ((start, start + ws) :: rest)
    else .ok []

/-! ## numpy value model

`PyArr` models a numpy array of rationals with arbitrary nesting depth
(the MLP extraction loop rebinds its `signal` variable to a 2-D array,
so values of both ranks flow through the same code). -/

inductive PyArr where
  | num (q : ℚ)
  | arr (xs : List PyArr)

namespace PyArr

/-- Python `len(a)`: the outermost length.  (Python raises for a scalar;
that case is never reached by the code modelled here.) -/
def len : PyArr → Nat
  | .num _ => 0
  | .arr xs => xs.length

/-- Python slice `a[i:j]` on the outermost axis. -/
def slice : PyArr → Nat → Nat → PyArr
  | .num q, _, _ => .num q
  | .arr xs, a, b => .arr ((xs.drop a).take (b - a))

mutual
/-- `numpy.abs`, elementwise. -/
def absA : PyArr → PyArr
  | .num q => .num |q|
  | .arr xs => .arr (absList xs)
def absList : List PyArr → List PyArr
  | [] => []
  | x :: xs => absA x :: absList xs
end

mutual
/-- Elementwise map, the shape of numpy broadcasting used by
`(a - mn) / (mx - mn)`. -/
def emap (f : ℚ → ℚ) : PyArr → PyArr
  | .num q => .num (f q)
  | .arr xs => .arr (emapList f xs)
def emapList (f : ℚ → ℚ) : List PyArr → List PyArr
  | [] => []
  | x :: xs => emap f x :: emapList f xs
end

mutual
/-- `numpy.zeros_like`. -/
def zerosLike : PyArr → PyArr
  | .num _ => .num 0
  | .arr xs => .arr (zerosList xs)
def zerosList : List PyArr → List PyArr
  | [] => []
  | x :: xs => zerosLike x :: zerosList xs
end

mutual
/-- `numpy.min` over all elements.  (numpy raises on an empty array;
the embedding returns `0` there, a case not reached by the code
modelled, which only reduces nonempty windows.) -/
def minVal : PyArr → ℚ
  | .num q => q
  | .arr xs => minList xs
def minList : List PyArr → ℚ
  | [] => 0
  | [x] => minVal x
  | x :: y :: xs => min (minVal x) (minList (y :: xs))
end

mutual
/-- `numpy.max` over all elements (same conventions as `minVal`). -/
def maxVal : PyArr → ℚ
  | .num q => q
  | .arr xs => maxList xs
def maxList : List PyArr → ℚ
  | [] => 0
  | [x] => maxVal x
  | x :: y :: xs => max (maxVal x) (maxList (y :: xs))
end

mutual
/-- Every scalar in the array is zero. -/
def allZero : PyArr → Bool
  | .num q => q == 0
  | .arr xs => allZeroList xs
def allZeroList : List PyArr → Bool
  | [] => true
  | x :: xs => allZero x && allZeroList xs
end

mutual
/-- The two arrays have the same (nested) shape. -/
def sameShape : PyArr → PyArr → Bool
  | .num _, .num _ => true
  | .arr xs, .arr ys => sameShapeList xs ys
  | _, _ => false
def sameShapeList : List PyArr → List PyArr → Bool
  | [], [] => true
  | x :: xs, y :: ys => sameShape x y && sameShapeList xs ys
  | _, _ => false
end

end PyArr

/-! ## Raw-segment-normalized feature extraction (MLP and LSTM families)

Shared normalization tail (`Models/LSTM.py` lines 270–281 and
`Models/MLP.py` lines 241–248, identical text in both):

    signal_min = numpy.min(signal_segments)
    signal_max = numpy.max(signal_segments)
    if signal_max != signal_min:
        normalized_signal = (signal_segments - signal_min) / (signal_max - signal_min)
    else:
        normalized_signal = numpy.zeros_like(signal_segments)

`signal_segments` is already absolute-valued at this point. -/
def normalizeWindow (signal_segments : PyArr) : PyArr :=
  let signal_min := signal_segments.minVal
  let signal_max := signal_segments.maxVal
  if signal_max ≠ signal_min then
    signal_segments.emap (fun x => (x - signal_min) / (signal_max - signal_min))
  else
    signal_segments.zerosLike

/-- Per-file extraction of `AudioLSTM.load_data` (`Models/LSTM.py` lines
260–281), applied to one decoded signal.  `ws = window_size`,
`factor = window_size_factor`, `step = window_size // overlap`.  Note the
source subdivides with `signal[i:i + local_window]` for
`i in range(0, len(signal[start:end]), local_window)` — indices from `0`,
i.e. always the prefix of the signal, and it keeps `signal` itself
unchanged (segments go into the separate `signal_segments` variable). -/
def lstmExtractFile (signal : List ℚ) (ws factor step : Nat) : List PyArr :=
  let sig : PyArr := .arr (signal.map .num)
  (windowsFrom signal.length ws step 0).foldl (fun acc se =>
    if (sig.slice se.1 se.2).len = ws then
      let local_window := (sig.slice se.1 se.2).len / factor
      let signal_segments : PyArr :=
        .arr ((pyRangeUp (sig.slice se.1 se.2).len local_window).map
          (fun i => sig.slice i (i + local_window)))
      acc ++ [normalizeWindow signal_segments.absA]
    else acc) []

/-- Per-file extraction of `AudioDense.load_data` (`Models/MLP.py` lines
234–251), applied to one decoded signal.  Unlike the LSTM variant, the
source REBINDS `signal` to the absolute-valued 2-D segment array:

    signal = [signal[i:i + local_window] for i in range(0, len(signal[start:end]), local_window)]
    signal = numpy.abs(numpy.array(signal))

while the `windows` generator keeps iterating with the length of the
original array (the generator captured `data` at creation).  The fold
state is the current value of `signal` plus the accumulated features. -/
def mlpExtractFile (signal : List ℚ) (ws factor step : Nat) : List PyArr :=
  let init : PyArr := .arr (signal.map .num)
  ((windowsFrom signal.length ws step 0).foldl (fun st se =>
    let sig := st.1
    if (sig.slice se.1 se.2).len = ws then
      let local_window := (sig.slice se.1 se.2).len / factor
      let rebound : PyArr :=
        (PyArr.arr ((pyRangeUp (sig.slice se.1 se.2).len local_window).map
          (fun i => sig.slice i (i + local_window)))).absA
      (rebound, st.2 ++ [normalizeWindow rebound])
    else (sig, st.2)) (init, ([] : List PyArr))).2

/-! ## Spectrogram matrices and patch splitting (AST family)

A numpy 2-D array is modelled by its shape together with its entry
function (`val i j` is meaningful for `i < h`, `j < w`; numpy arrays are
rectangular by construction). -/

structure NpMat where
  h : Nat
  w : Nat
  val : Nat → Nat → ℚ

instance : Inhabited NpMat := ⟨⟨0, 0, fun _ _ => 0⟩⟩

namespace NpMat

/-- Elementwise map (numpy broadcast arithmetic). -/
def emap (f : ℚ → ℚ) (m : NpMat) : NpMat :=
  ⟨m.h, m.w, fun i j => f (m.val i j)⟩

/-- `numpy.pad(m, ((0, ph), (0, pw)), mode='constant', constant_values=0)`:
zeros below and to the right. -/
def padZero (m : NpMat) (ph pw : Nat) : NpMat :=
  ⟨m.h + ph, m.w + pw, fun i j => if i < m.h ∧ j < m.w then m.val i j else 0⟩

end NpMat

/-- The zero-padded spectrogram built by
`AudioAST.split_spectrogram_into_patches` (`Models/AST.py` lines 210–248):

    pad_height = (patch_size[0] - (spectrogram.shape[0] % patch_size[0])) % patch_size[0]
    pad_width  = (patch_size[1] - (spectrogram.shape[1] % patch_size[1])) % patch_size[1]
    padded_spectrogram = numpy.pad(spectrogram, ((0, pad_height), (0, pad_width)), ...)
-/
def padded_spectrogram (p0 p1 : Nat) (m : NpMat) : NpMat :=
  m.padZero ((p0 - m.h % p0) % p0) ((p1 - m.w % p1) % p1)

/-- `AudioAST.split_spectrogram_into_patches` (`Models/AST.py` lines
210–248): pad, then cut `patch_size[0] × patch_size[1]` tiles in
row-major order:

    for i in range(num_patches_x):
        for j in range(num_patches_y):
            patch = padded_spectrogram[i*p0:(i+1)*p0, j*p1:(j+1)*p1]
-/
def split_spectrogram_into_patches (p0 p1 : Nat) (m : NpMat) : List NpMat :=
  let padded := padded_spectrogram p0 p1 m
  let num_patches_x := padded.h / p0
  let num_patches_y := padded.w / p1
  (List.range num_patches_x).flatMap (fun i =>
    (List.range num_patches_y).map (fun j =>
      ⟨p0, p1, fun a b => padded.val (i * p0 + a) (j * p1 + b)⟩))

/-! ## Per-file extraction, AST and residual families

`librosa.feature.melspectrogram` followed by
`librosa.power_to_db(·, ref=numpy.max)` is an external collaborator
(audio/DSP library); it enters as the opaque parameter `melDb` mapping a
window's samples to a 2-D array.  The repository's own affine rescale
`(db / decibel_scale_factor) + 1` and the patch splitting are explicit. -/

/-- Per-file extraction of `AudioAST.load_dataset` (`Models/AST.py` lines
503–525): one list of patches per accepted window. -/
def astExtractFile (melDb : List ℚ → NpMat) (ws step : Nat) (scale : ℚ)
    (p0 p1 : Nat) (signal : List ℚ) : List (List NpMat) :=
  (windowsFrom signal.length ws step 0).foldl (fun acc se =>
    if (listSlice signal se.1 se.2).length = ws then
      let spectrogram := melDb (listSlice signal se.1 se.2)
      let rescaled := spectrogram.emap (fun x => x / scale + 1)
      acc ++ [split_spectrogram_into_patches p0 p1 rescaled]
    else acc) []

/-- Per-file extraction of `ResidualModel.load_data` (`Models/ResidualModel.py`
lines 282–298): one rescaled spectrogram per accepted window. -/
def residualExtractFile (melDb : List ℚ → NpMat) (ws step : Nat) (scale : ℚ)
    (signal : List ℚ) : List NpMat :=
  (windowsFrom signal.length ws step 0).foldl (fun acc se =>
    if (listSlice signal se.1 se.2).length = ws then
      let spectrogram := melDb (listSlice signal se.1 se.2)
      acc ++ [spectrogram.emap (fun x => x / scale + 1)]
    else acc) []

/-- The post-loop reshape of `ResidualModel.load_data` (lines 300–311):
`new_shape[1] += 1` with `new_array[:, :n_filters, :, :] = array_features`
appends one all-zero row in the filter dimension of every feature. -/
def residualPadRow (m : NpMat) : NpMat :=
  ⟨m.h + 1, m.w, fun i j => if i < m.h then m.val i j else 0⟩

/-! ## Dataset loaders: directory and fault model

File-system and decoding effects are modelled explicitly: an audio file
either decodes to a signal or raises (`librosa.load` failure), and the
root dataset directory either exists or not.  `os.listdir` on a missing
directory raises `FileNotFoundError`. -/

structure AudioFile where
  /-- Result of `librosa.load`: the decoded samples, or a decode fault. -/
  decode : Except Unit (List ℚ)
  /-- The label token parsed from the file path
  (`file_name.split('/')[-2].split('_')[0]`). -/
  label : Int

structure DatasetDir where
  /-- What `os.path.exists(sub_directories)` returns. -/
  rootExists : Bool
  /-- The audio files of each class subdirectory, in listing order. -/
  classDirs : List (List AudioFile)

/-- Result of one `load_data`/`load_dataset` call: the accumulated
(feature, label) pairs, the explicit `(None, None)` return, or an
uncaught exception escaping the call. -/
inductive LoadResult (α : Type) where
  | ok (pairs : List (α × Int))
  | noneNone
  | exn

/-- Loader body shared by `AudioAST.load_dataset` (`Models/AST.py` lines
480–528) and `AudioLSTM.load_data` (`Models/LSTM.py` lines 231–284):
missing root directory is checked up front (`return None, None`), and the
whole per-file work is wrapped in `try/except` — a file whose decoding
raises is logged and skipped, the loop continues. -/
def loadCatching {α : Type} (extract : List ℚ → List α) (d : DatasetDir) :
    LoadResult α :=
  if d.rootExists = false then .noneNone
  else .ok (d.classDirs.flatMap (fun dir => dir.flatMap (fun f =>
    match f.decode with
    | .error _ => []
    | .ok signal => (extract signal).map (fun ft => (ft, f.label)))))

/-- Per-directory file loop without `try/except`: the first decode fault
propagates. -/
def collectStrict {α : Type} (extract : List ℚ → List α) :
    List AudioFile → Except Unit (List (α × Int))
  | [] => .ok []
  | f :: fs =>
    match f.decode with
    | .error e => .error e
    | .ok signal =>
      match collectStrict extract fs with
      | .error e => .error e
      | .ok rest => .ok ((extract signal).map (fun ft => (ft, f.label)) ++ rest)

/-- All class directories, without `try/except`. -/
def collectDirsStrict {α : Type} (extract : List ℚ → List α) :
    List (List AudioFile) → Except Unit (List (α × Int))
  | [] => .ok []
  | dir :: rest =>
    match collectStrict extract dir with
    | .error e => .error e
    | .ok xs =>
      match collectDirsStrict extract rest with
      | .error e => .error e
      | .ok ys => .ok (xs ++ ys)

/-- Loader body shared by `AudioDense.load_data` (`Models/MLP.py` lines
200–256) and `ResidualModel.load_data` (`Models/ResidualModel.py` lines
239–314): NO existence check (`os.listdir` raises on a missing root) and
NO `try/except` around the per-file work (any decode fault aborts the
whole load). -/
def loadNoCatch {α : Type} (extract : List ℚ → List α) (d : DatasetDir) :
    LoadResult α :=
  if d.rootExists = false then .exn
  else
    match collectDirsStrict extract d.classDirs with
    | .error _ => .exn
    | .ok pairs => .ok pairs

/-- `AudioAST.load_dataset` over the directory model. -/
def astLoadDataset (melDb : List ℚ → NpMat) (ws step : Nat) (scale : ℚ)
    (p0 p1 : Nat) (d : DatasetDir) : LoadResult (List NpMat) :=
  loadCatching (astExtractFile melDb ws step scale p0 p1) d

/-- `AudioLSTM.load_data` over the directory model. -/
def lstmLoadData (ws factor step : Nat) (d : DatasetDir) : LoadResult PyArr :=
  loadCatching (fun signal => lstmExtractFile signal ws factor step) d

/-- `AudioDense.load_data` over the directory model. -/
def mlpLoadData (ws factor step : Nat) (d : DatasetDir) : LoadResult PyArr :=
  loadNoCatch (fun signal => mlpExtractFile signal ws factor step) d

/-- `ResidualModel.load_data` over the directory model, including the
post-loop zero-padded extra filter row. -/
def residualLoadData (melDb : List ℚ → NpMat) (ws step : Nat) (scale : ℚ)
    (d : DatasetDir) : LoadResult NpMat :=
  match loadNoCatch (residualExtractFile melDb ws step scale) d with
  | .ok pairs => .ok (pairs.map (fun p => (residualPadRow p.1, p.2)))
  | .noneNone => .noneNone
  | .exn => .exn

/-- `d` restricted to the files that decode successfully. -/
def keepDecodable (d : DatasetDir) : DatasetDir :=
  ⟨d.rootExists, d.classDirs.map (fun dir => dir.filter (fun f => f.decode.isOk))⟩

/-- Some file of `d` fails to decode. -/
def hasBadFile (d : DatasetDir) : Prop :=
  ∃ dir ∈ d.classDirs, ∃ f ∈ dir, f.decode.isOk = false

/-! ## Class balancer

`balance_classes` (defined identically inside `train()` of
`Models/AST.py` lines 602–627, `Models/LSTM.py` lines 350–374,
`Models/MLP.py` lines 299–323 and `Models/ResidualModel.py` lines
397–421).  Labels are the float-cast class labels
(`labels.astype(float)`), modelled as rationals; features are generic. -/

/-- Sorted insertion without duplicates, the building block of
`numpy.unique` below. -/
def insertUnique (x : ℚ) : List ℚ → List ℚ
  | [] => [x]
  | y :: ys =>
    if x < y then x :: y :: ys
    else if x = y then y :: ys
    else y :: insertUnique x ys

/-- `numpy.unique(labels)`: the distinct label values in ascending order. -/
def npUnique (labels : List ℚ) : List ℚ :=
  labels.foldr insertUnique []

/-- `max([sum(labels == c) for c in unique_classes])`.  (Python `max` on
an empty list raises; the embedding returns `0` there — the balancer is
only ever applied to nonempty label arrays.) -/
def maxSamples (labels : List ℚ) : Nat :=
  ((npUnique labels).map (fun c => labels.count c)).foldr max 0

/-- Models `sklearn.utils.resample(features_class, labels_class,
replace=True, n_samples=n, random_state=0)` (external collaborator):
returns `n` rows drawn with replacement from the input, the same row
indices used for both parallel arrays.  The fixed-seed random draw is
modelled by the deterministic draw `i ↦ i mod length`; every property
proved below depends only on each drawn row coming from the input
arrays.  (sklearn raises on empty input, never reached here: the class
subsets resampled always contain at least one row.) -/
def resample {α : Type} [Inhabited α] (features : List α) (labels : List ℚ)
    (n : Nat) : List α × List ℚ :=
  ((List.range n).map (fun i => features.getD (i % features.length) default),
   (List.range n).map (fun i => labels.getD (i % labels.length) 0))

/-- `features[labels == c]`: boolean-mask selection on parallel arrays. -/
def maskSelect {α : Type} (features : List α) (labels : List ℚ) (c : ℚ) :
    List α :=
  ((features.zip labels).filter (fun p => p.2 = c)).map (fun p => p.1)

/-- `balance_classes(features, labels)`:

    unique_classes = numpy.unique(labels)
    max_samples = max([sum(labels == c) for c in unique_classes])
    for c in unique_classes:
        features_class = features[labels == c]
        labels_class = labels[labels == c]
        ... = resample(..., replace=True, n_samples=max_samples, random_state=0)
        balanced_features.append(...); balanced_labels.append(...)
    return numpy.vstack(balanced_features), numpy.hstack(balanced_labels)
-/
def balance_classes {α : Type} [Inhabited α] (features : List α)
    (labels : List ℚ) : List α × List ℚ :=
  let unique_classes := npUnique labels
  let max_samples := maxSamples labels
  let blocks := unique_classes.map (fun c =>
    resample (maskSelect features labels c) (labels.filter (fun l => l = c))
      max_samples)
  ((blocks.map (fun b => b.1)).flatten, (blocks.map (fun b => b.2)).flatten)

/-! ## Cross-validation trainer after the holdout split

`train()` (`Models/AST.py` lines 596–693, structurally identical in
`Models/LSTM.py` lines 344–441, `Models/MLP.py` lines 293–390 and
`Models/ResidualModel.py` lines 391–487).  After `train_test_split`
produces `features_train_val, features_test, labels_train_val,
labels_test`, the remaining pipeline is deterministic in its inputs.
External collaborators enter as parameters:

* `kfold` — `StratifiedKFold(...).split(features, labels)` index pairs;
* `fitPredict` — `build_model` + `compile_and_train` + `predict`: maps
  the balanced fold training set and the fold validation set to the
  predicted probability rows and the keras `History` object;
* `calcMetrics` — `MetricsCalculator.calculate_metrics` (a module not in
  the four model files): per-fold metric dict and confusion matrix;
* `stdFn` — `numpy.std`.
-/

structure FoldMetrics where
  accuracy : ℚ
  precision : ℚ
  recallScore : ℚ
  f1Score : ℚ

structure TrainReport (H : Type) where
  accMean : ℚ
  accStd : ℚ
  precMean : ℚ
  precStd : ℚ
  recMean : ℚ
  recStd : ℚ
  f1Mean : ℚ
  f1Std : ℚ
  /-- `history_model.history` of the LAST fold (the loop variable). -/
  history : Option H
  /-- Fold-averaged confusion matrix, rounded to integers. -/
  confusion : List (List Int)
  /-- Concatenated out-of-fold probability rows. -/
  probabilities : List (List ℚ)
  /-- Concatenated out-of-fold ground-truth labels. -/
  groundTruth : List ℚ

/-- `numpy.mean`. -/
def npMean (xs : List ℚ) : ℚ := xs.sum / xs.length

/-- `numpy.argmax` over one probability row (first index of the maximum). -/
def argmaxIdx (xs : List ℚ) : Nat :=
  (xs.enum.foldl (fun best p => if p.2 > best.2 then p else best)
    (0, xs.headD 0)).1

/-- Accumulator of the per-fold loop: `metrics_list`,
`confusion_matriz_list`, `probabilities_list`, `real_labels_list` and the
running `history_model`. -/
structure FoldLoopState (H : Type) where
  metrics : List FoldMetrics
  confusions : List (List (List ℚ))
  probabilities : List (List ℚ)
  groundTruth : List ℚ
  history : Option H

/-- Element-wise mean of the per-fold confusion matrices, rounded
(`numpy.round(numpy.mean(cms, axis=0)).astype(numpy.int32)`). -/
def meanConfusion (cms : List (List (List ℚ))) : List (List Int) :=
  match cms with
  | [] => []
  | c0 :: _ =>
    (List.range c0.length).map (fun i =>
      (List.range ((c0.getD i []).length)).map (fun j =>
        round (npMean (cms.map (fun m => (m.getD i []).getD j 0)))))

/-- `xs[indexes]`: numpy fancy indexing. -/
def indexSelect {α : Type} [Inhabited α] (xs : List α) (idx : List Nat) :
    List α :=
  idx.map (fun i => xs.getD i default)

/-- Everything `train()` does after the holdout split, returning the
4-tuple's content.  `featuresTest`/`labelsTest` are the held-out 20%
partition produced by `train_test_split`; they are bound by the source
but appear in no later statement. -/
def trainAfterSplit {F H : Type} [Inhabited F]
    (kfold : List F → List ℚ → List (List Nat × List Nat))
    (fitPredict : List F → List ℚ → List F → List ℚ → List (List ℚ) × H)
    (calcMetrics : List Nat → List ℚ → FoldMetrics × List (List ℚ))
    (stdFn : List ℚ → ℚ)
    (featuresTrainVal : List F) (labelsTrainVal : List ℚ)
    (featuresTest : List F) (labelsTest : List ℚ) : TrainReport H :=
  -- features_train_val, labels_train_val = balance_classes(...)
  let balanced := balance_classes featuresTrainVal labelsTrainVal
  let folds := kfold balanced.1 balanced.2
  -- per-fold loop, accumulating metrics, confusion matrices,
  -- probabilities, ground truth and the last history
  let state := folds.foldl (fun st fold =>
    let features_train := indexSelect balanced.1 fold.1
    let labels_train := indexSelect balanced.2 fold.1
    let features_val := indexSelect balanced.1 fold.2
    let labels_val := indexSelect balanced.2 fold.2
    let foldBalanced := balance_classes features_train labels_train
    let fitted := fitPredict foldBalanced.1 foldBalanced.2 features_val labels_val
    let predicted_labels := fitted.1.map argmaxIdx
    let mcm := calcMetrics predicted_labels labels_val
    { metrics := st.metrics ++ [mcm.1]
      confusions := st.confusions ++ [mcm.2]
      probabilities := st.probabilities ++ fitted.1
      groundTruth := st.groundTruth ++ labels_val
      history := some fitted.2 })
    ({ metrics := [], confusions := [], probabilities := [],
       groundTruth := [], history := none } : FoldLoopState H)
  { accMean := npMean (state.metrics.map (fun m => m.accuracy))
    accStd := stdFn (state.metrics.map (fun m => m.accuracy))
    precMean := npMean (state.metrics.map (fun m => m.precision))
    precStd := stdFn (state.metrics.map (fun m => m.precision))
    recMean := npMean (state.metrics.map (fun m => m.recallScore))
    recStd := stdFn (state.metrics.map (fun m => m.recallScore))
    f1Mean := npMean (state.metrics.map (fun m => m.f1Score))
    f1Std := stdFn (state.metrics.map (fun m => m.f1Score))
    history := state.history
    confusion := meanConfusion state.confusions
    probabilities := state.probabilities
    groundTruth := state.groundTruth }

/-! # Theorems -/

/-! ## Windowing (claims C1, C7) -/

/-- Closed form of the generator: from state `start` it yields the
arithmetic progression of starts `start, start + step, ...` below `L`,
each paired with `start + k·step + ws`. -/
theorem windowsFrom_eq_map (ws step : Nat) (hs : 0 < step) :
    ∀ L start, windowsFrom L ws step start =
      (List.range ((L - start + step - 1) / step)).map
        (fun k => (start + k * step, start + k * step + ws)) := by
  intro L
  have key : ∀ n start, L - start ≤ n → windowsFrom L ws step start =
      (List.range ((L - start + step - 1) / step)).map
        (fun k => (start + k * step, start + k * step + ws)) := by
    intro n
    induction n with
    | zero =>
      intro start hle
      have hnot : ¬ start < L := by omega
      have hz : L - start = 0 := by omega
      rw [windowsFrom, dif_neg hnot, hz]
      have h0 : (0 + step - 1) / step = 0 := Nat.div_eq_of_lt (by omega)
      rw [h0]
      rfl
    | succ n ih =>
      intro start hle
      by_cases hlt : start < L
      · rw [windowsFrom, dif_pos hlt, if_pos hs, ih (start + step) (by omega)]
        have hd1 : L - start + step - 1 = (L - start - 1) + step := by omega
        have hN : (L - start + step - 1) / step = (L - start - 1) / step + 1 := by
          rw [hd1, Nat.add_div_right _ hs]
        have hn' : (L - (start + step) + step - 1) / step = (L - start - 1) / step := by
          by_cases hds : L - start ≤ step
          · have e1 : L - (start + step) = 0 := by omega
            rw [e1, Nat.div_eq_of_lt (show 0 + step - 1 < step by omega),
              Nat.div_eq_of_lt (show L - start - 1 < step by omega)]
          · have e1 : L - (start + step) + step - 1 = (L - start - 1 - step) + step := by
              omega
            have e2 : L - start - 1 = (L - start - 1 - step) + step := by omega
            conv_rhs => rw [e2]
            rw [e1, Nat.add_div_right _ hs]
        rw [hn', hN, List.range_succ_eq_map, List.map_cons, List.map_map]
        have hfu : (fun k => (start + step + k * step, start + step + k * step + ws))
            = (fun k => (start + k * step, start + k * step + ws)) ∘ Nat.succ := by
          funext k
          simp only [Function.comp_apply, Nat.succ_eq_add_one, Prod.mk.injEq]
          constructor <;> ring
        rw [hfu]
        simp
      · have hz : L - start = 0 := by omega
        rw [windowsFrom, dif_neg hlt, hz]
        have h0 : (0 + step - 1) / step = 0 := Nat.div_eq_of_lt (by omega)
        rw [h0]
        rfl
  exact fun start => key (L - start) start (le_refl _)

/-- C1 (corrected).  For `window_size, overlap ≥ 1` with a positive step
`window_size // overlap`, the windows generator over data of length `L`
yields exactly `⌈L / step⌉ = (L + step - 1) / step` pairs — the starts
`0, step, 2·step, …` while `start < L` — each with
`end = start + window_size`.  (The claimed count
`⌈max(0, L - window_size)/step⌉ + 1` is wrong: the loop guard is
`start < len(data)`, not `start ≤ len(data) - window_size`, so trailing
short windows are also yielded; see the counterexample.) -/
theorem windows_yield_count_and_bounds (L ws overlap : Nat)
    (hs : 0 < ws / overlap) :
    (windows L ws overlap).length = (L + ws / overlap - 1) / (ws / overlap)
    ∧ (∀ p ∈ windows L ws overlap, p.2 = p.1 + ws)
    ∧ windows L ws overlap =
        (List.range ((L + ws / overlap - 1) / (ws / overlap))).map
          (fun k => (k * (ws / overlap), k * (ws / overlap) + ws)) := by
  have h := windowsFrom_eq_map ws (ws / overlap) hs L 0
  simp only [Nat.sub_zero, Nat.zero_add, zero_add] at h
  refine ⟨?_, ?_, ?_⟩
  · rw [windows, h, List.length_map, List.length_range]
  · intro p hp
    rw [windows, h] at hp
    obtain ⟨k, -, rfl⟩ := List.mem_map.mp hp
    rfl
  · rw [windows, h]

/-- C1 witness: `L = 10`, `window_size = 4`, `overlap = 2` — the five
pairs `(0,4), (2,6), (4,8), (6,10), (8,12)`, i.e. starts
`[0, 2, 4, 6, 8]`. -/
theorem windows_yield_count_and_bounds_witness :
    (windows 10 4 2).length = 5
    ∧ windows 10 4 2 = [(0, 4), (2, 6), (4, 8), (6, 10), (8, 12)] := by
  obtain ⟨h1, _, h3⟩ := windows_yield_count_and_bounds 10 4 2 (by norm_num)
  norm_num at h1 h3
  exact ⟨h1, by rw [h3]; rfl⟩

/-- C1 counterexample: for `L = 10`, `window_size = 4`, `overlap = 2` the
claimed count `⌈max(0, L - window_size) / (window_size // overlap)⌉ + 1`
evaluates to `4`, but the generator yields `5` pairs. -/
theorem windows_count_formula_counterexample :
    (windows 10 4 2).length ≠ (10 - 4 + 4 / 2 - 1) / (4 / 2) + 1 := by
  have h := windowsFrom_eq_map 4 2 (by norm_num) 10 0
  rw [windows]
  norm_num [h]

/-- C7 (corrected).  On non-empty data the step expression
`window_size // overlap` is evaluated right after the first yield;
it raises a division fault exactly when `overlap = 0`.  For every
`overlap ≠ 0` — including every negative overlap — no division fault ever
occurs, at any number of iterations.  (The claim said every
`overlap ≤ 0` faults; Python floor division by a negative number is
well-defined, see the counterexample.) -/
theorem windows_division_fault_iff_zero_overlap (L : Nat) (ws ov : Int)
    (hL : 1 ≤ L) :
    (∀ fuel, windowsIter L ws 0 (fuel + 1) 0 = .error ())
    ∧ (ov ≠ 0 → ∀ fuel start, windowsIter L ws ov fuel start ≠ .error ()) := by
  constructor
  · intro fuel
    have h0 : (0 : Int) < (L : Int) := by exact_mod_cast hL
    simp [windowsIter, h0, pyFloorDiv]
  · intro hov fuel
    induction fuel with
    | zero => intro start h; simp [windowsIter] at h
    | succ n ih =>
      intro start
      rw [windowsIter]
      by_cases hlt : start < (L : Int)
      · rw [if_pos hlt]
        have hdiv : pyFloorDiv ws ov = some (Int.fdiv ws ov) := by
          simp [pyFloorDiv, hov]
        rw [hdiv]
        cases h : windowsIter L ws ov n (start + Int.fdiv ws ov) with
        | error e => exact absurd h (ih _)
        | ok rest => simp [h]
      · rw [if_neg hlt]
        simp

/-- C7 witness: with `L = 1`, `window_size = 4`: `overlap = 0` faults on
the first iteration, `overlap = 1` never faults. -/
theorem windows_division_fault_witness :
    windowsIter 1 4 0 1 0 = .error ()
    ∧ windowsIter 1 4 1 5 0 ≠ .error () := by
  obtain ⟨a, b⟩ := windows_division_fault_iff_zero_overlap 1 4 1 (le_refl 1)
  exact ⟨a 0, b (by norm_num) 5 0⟩

/-- C7 counterexample: `overlap = -1 ≤ 0` over non-empty data does NOT
raise a division fault: the step expression `4 // -1` evaluates to `-4`
and the iteration keeps yielding windows with negative starts. -/
theorem negative_overlap_no_division_fault :
    pyFloorDiv 4 (-1) = some (-4)
    ∧ windowsIter 1 4 (-1) 3 0 = .ok [(0, 4), (-4, 0), (-8, -4)] := by
  constructor
  · rfl
  · rfl

/-! ## Min-max normalization degeneracy (claim C8) -/

mutual
/-- `numpy.zeros_like` output contains only zeros. -/
theorem allZero_zerosLike : (s : PyArr) → s.zerosLike.allZero = true
  | .num _ => rfl
  | .arr xs => allZeroList_zerosList xs
theorem allZeroList_zerosList : (xs : List PyArr) →
    PyArr.allZeroList (PyArr.zerosList xs) = true
  | [] => rfl
  | x :: xs => by
    simp only [PyArr.zerosList, PyArr.allZeroList, Bool.and_eq_true]
    exact ⟨allZero_zerosLike x, allZeroList_zerosList xs⟩
end

mutual
/-- `numpy.zeros_like` of `numpy.abs(s)` has the shape of `s`. -/
theorem sameShape_zerosLike_absA : (s : PyArr) →
    ((s.absA).zerosLike).sameShape s = true
  | .num _ => rfl
  | .arr xs => sameShapeList_zerosList_absList xs
theorem sameShapeList_zerosList_absList : (xs : List PyArr) →
    PyArr.sameShapeList (PyArr.zerosList (PyArr.absList xs)) xs = true
  | [] => rfl
  | x :: xs => by
    simp only [PyArr.absList, PyArr.zerosList, PyArr.sameShapeList,
      Bool.and_eq_true]
    exact ⟨sameShape_zerosLike_absA x, sameShapeList_zerosList_absList xs⟩
end

/-- C8 (confirmed).  In the raw-segment extraction, when the
absolute-valued segment array is constant (its numpy max equals its numpy
min), the emitted tensor is `numpy.zeros_like` of it — all zeros, same
shape as the segment array — and the division branch is never entered:
it is guarded by `signal_max != signal_min`, under which the denominator
`signal_max - signal_min` is nonzero. -/
theorem normalize_constant_window_all_zero (signal_segments : PyArr)
    (h : (signal_segments.absA).maxVal = (signal_segments.absA).minVal) :
    normalizeWindow signal_segments.absA = (signal_segments.absA).zerosLike
    ∧ (normalizeWindow signal_segments.absA).allZero = true
    ∧ (normalizeWindow signal_segments.absA).sameShape signal_segments = true
    ∧ ∀ t : PyArr, t.maxVal ≠ t.minVal → t.maxVal - t.minVal ≠ 0 := by
  have e : normalizeWindow signal_segments.absA =
      (signal_segments.absA).zerosLike := by
    simp [normalizeWindow, h]
  refine ⟨e, ?_, ?_, fun t ht => sub_ne_zero.mpr ht⟩
  · rw [e]
    exact allZero_zerosLike _
  · rw [e]
    exact sameShape_zerosLike_absA _

/-- C8 witness: the constant window `[[−3, 3], [3, −3]]` (absolute value
`[[3, 3], [3, 3]]`, max = min = 3) normalizes to the all-zero array of
the same shape. -/
theorem normalize_constant_window_all_zero_witness :
    normalizeWindow (PyArr.arr [PyArr.arr [PyArr.num (-3), PyArr.num 3],
        PyArr.arr [PyArr.num 3, PyArr.num (-3)]]).absA
      = PyArr.arr [PyArr.arr [PyArr.num 0, PyArr.num 0],
        PyArr.arr [PyArr.num 0, PyArr.num 0]]
    ∧ (normalizeWindow (PyArr.arr [PyArr.arr [PyArr.num (-3), PyArr.num 3],
        PyArr.arr [PyArr.num 3, PyArr.num (-3)]]).absA).allZero = true := by
  obtain ⟨e, hz, -, -⟩ := normalize_constant_window_all_zero
    (PyArr.arr [PyArr.arr [PyArr.num (-3), PyArr.num 3],
      PyArr.arr [PyArr.num 3, PyArr.num (-3)]]) (by norm_num [PyArr.absA,
        PyArr.absList, PyArr.maxVal, PyArr.maxList, PyArr.minVal, PyArr.minList])
  exact ⟨by rw [e]; rfl, hz⟩

/-! ## Shared raw-segment extraction, MLP vs LSTM (claim C2) -/

/-- C2 (code bug).  The raw-segment-normalized extraction is NOT one
shared computation: with identical parameters (`window_size = 4`,
`window_size_factor = 2`, step `window_size // overlap = 2`) on the same
8-sample decodable signal, the LSTM extractor emits 3 feature tensors but
the MLP extractor emits only 1.  The MLP loop rebinds `signal` to the
2-D absolute-valued segment array after the first accepted window
(`signal = [signal[i:i + local_window] ...]`; `signal = numpy.abs(...)`),
so every later window slices a 2-row array, never matches `window_size`,
and is dropped — while the windows generator keeps iterating over the
original length it captured. -/
theorem mlp_lstm_shared_extraction_divergence :
    (lstmExtractFile [1, 2, 3, 4, 5, 6, 7, 8] 4 2 2).length = 3
    ∧ (mlpExtractFile [1, 2, 3, 4, 5, 6, 7, 8] 4 2 2).length = 1
    ∧ (lstmExtractFile [1, 2, 3, 4, 5, 6, 7, 8] 4 2 2).length ≠
        (mlpExtractFile [1, 2, 3, 4, 5, 6, 7, 8] 4 2 2).length := by
  have win8 : windowsFrom (List.length [(1 : ℚ), 2, 3, 4, 5, 6, 7, 8]) 4 2 0 =
      [(0, 4), (2, 6), (4, 8), (6, 10)] := by
    rw [show List.length [(1 : ℚ), 2, 3, 4, 5, 6, 7, 8] = 8 from rfl,
      windowsFrom_eq_map 4 2 (by norm_num) 8 0]
    rfl
  have hl : (lstmExtractFile [1, 2, 3, 4, 5, 6, 7, 8] 4 2 2).length = 3 := by
    rw [lstmExtractFile, win8]
    rfl
  have hm : (mlpExtractFile [1, 2, 3, 4, 5, 6, 7, 8] 4 2 2).length = 1 := by
    rw [mlpExtractFile, win8]
    rfl
  exact ⟨hl, hm, by rw [hl, hm]; norm_num⟩

/-! ## Loader error handling (claims C3, C4) -/

/-- C3 (corrected).  Only the AST and LSTM loaders guard the root
directory with `os.path.exists` and return `(None, None)`; the MLP and
residual loaders have no such check — `os.listdir` on the missing
directory raises, so the load raises instead of returning `(None, None)`. -/
theorem missing_directory_behavior (melDbA melDbR : List ℚ → NpMat)
    (wsA stepA p0 p1 wsL factorL stepL wsM factorM stepM wsR stepR : Nat)
    (scaleA scaleR : ℚ) (d : DatasetDir) (h : d.rootExists = false) :
    astLoadDataset melDbA wsA stepA scaleA p0 p1 d = .noneNone
    ∧ lstmLoadData wsL factorL stepL d = .noneNone
    ∧ mlpLoadData wsM factorM stepM d = .exn
    ∧ residualLoadData melDbR wsR stepR scaleR d = .exn := by
  refine ⟨?_, ?_, ?_, ?_⟩ <;>
    simp [astLoadDataset, lstmLoadData, mlpLoadData, residualLoadData,
      loadCatching, loadNoCatch, h]

/-- C3 witness: a missing root directory with each loader at concrete
parameters. -/
theorem missing_directory_behavior_witness :
    astLoadDataset (fun _ => ⟨0, 0, fun _ _ => 0⟩) 4 2 80 16 16 ⟨false, []⟩
        = .noneNone
    ∧ lstmLoadData 4 2 2 ⟨false, []⟩ = .noneNone
    ∧ mlpLoadData 4 2 2 ⟨false, []⟩ = .exn
    ∧ residualLoadData (fun _ => ⟨0, 0, fun _ _ => 0⟩) 4 2 80 ⟨false, []⟩
        = .exn :=
  missing_directory_behavior (fun _ => ⟨0, 0, fun _ _ => 0⟩)
    (fun _ => ⟨0, 0, fun _ _ => 0⟩) 4 2 16 16 4 2 2 4 2 2 4 2 80 80
    ⟨false, []⟩ rfl

/-- C3 counterexample: the MLP loader on a missing root directory raises
(`os.listdir` fault) rather than returning `(None, None)`. -/
theorem mlp_missing_directory_counterexample :
    mlpLoadData 4 2 2 ⟨false, []⟩ ≠ .noneNone := by
  simp [mlpLoadData, loadNoCatch]

/-- In the try/except loaders, a file that fails to decode contributes
nothing: the load over `d` equals the load over `d` restricted to its
decodable files. -/
theorem flatMapFiles_filter {α : Type} (extract : List ℚ → List α) :
    ∀ dir : List AudioFile,
      dir.flatMap (fun f => match f.decode with
        | .error _ => []
        | .ok signal => (extract signal).map (fun ft => (ft, f.label)))
      = (dir.filter (fun f => f.decode.isOk)).flatMap
          (fun f => match f.decode with
            | .error _ => []
            | .ok signal => (extract signal).map (fun ft => (ft, f.label)))
  | [] => rfl
  | f :: fs => by
    cases hd : f.decode with
    | error e =>
      simp [List.flatMap_cons, List.filter_cons, hd, Except.isOk, Except.toBool,
        flatMapFiles_filter extract fs]
    | ok sig =>
      simp [List.flatMap_cons, List.filter_cons, hd, Except.isOk, Except.toBool,
        flatMapFiles_filter extract fs]

/-- A directory list with a non-decodable file makes the strict
(no-`try`) per-file loop raise. -/
theorem collectStrict_error {α : Type} (extract : List ℚ → List α) :
    ∀ dir : List AudioFile, (∃ f ∈ dir, f.decode.isOk = false) →
      collectStrict extract dir = .error ()
  | [], h => by simp at h
  | f :: fs, h => by
    cases hd : f.decode with
    | error e => cases e; simp [collectStrict, hd]
    | ok sig =>
      have hfs : ∃ g ∈ fs, g.decode.isOk = false := by
        obtain ⟨g, hg, hbadg⟩ := h
        rcases List.mem_cons.mp hg with rfl | hmem
        · rw [hd] at hbadg
          simp [Except.isOk, Except.toBool] at hbadg
        · exact ⟨g, hmem, hbadg⟩
      simp [collectStrict, hd, collectStrict_error extract fs hfs]

/-- A dataset with a non-decodable file makes the strict directory loop
raise. -/
theorem collectDirsStrict_error {α : Type} (extract : List ℚ → List α) :
    ∀ dirs : List (List AudioFile),
      (∃ dir ∈ dirs, ∃ f ∈ dir, f.decode.isOk = false) →
      collectDirsStrict extract dirs = .error ()
  | [], h => by simp at h
  | dir :: rest, h => by
    by_cases hdir : ∃ f ∈ dir, f.decode.isOk = false
    · simp [collectDirsStrict, collectStrict_error extract dir hdir]
    · have hrest : ∃ d ∈ rest, ∃ f ∈ d, f.decode.isOk = false := by
        obtain ⟨d, hdm, hf⟩ := h
        rcases List.mem_cons.mp hdm with rfl | hmem
        · exact absurd hf hdir
        · exact ⟨d, hmem, hf⟩
      rw [collectDirsStrict]
      cases hc : collectStrict extract dir with
      | error e => cases e; rfl
      | ok xs => simp [collectDirsStrict_error extract rest hrest]

/-- C4 (corrected).  Per-file decode faults are caught, logged and
skipped only by the AST and LSTM loaders (their load equals the load of
the decodable subset, so good files are kept); the MLP and residual
loaders have no `try/except` — one bad file aborts the whole load with
the exception. -/
theorem per_file_fault_behavior (melDbA melDbR : List ℚ → NpMat)
    (wsA stepA p0 p1 wsL factorL stepL wsM factorM stepM wsR stepR : Nat)
    (scaleA scaleR : ℚ) (d : DatasetDir) (hroot : d.rootExists = true)
    (hbad : hasBadFile d) :
    astLoadDataset melDbA wsA stepA scaleA p0 p1 d
        = astLoadDataset melDbA wsA stepA scaleA p0 p1 (keepDecodable d)
    ∧ lstmLoadData wsL factorL stepL d
        = lstmLoadData wsL factorL stepL (keepDecodable d)
    ∧ mlpLoadData wsM factorM stepM d = .exn
    ∧ residualLoadData melDbR wsR stepR scaleR d = .exn := by
  have hcatch : ∀ (α : Type) (extract : List ℚ → List α),
      loadCatching extract d = loadCatching extract (keepDecodable d) := by
    intro α extract
    simp only [loadCatching, keepDecodable, hroot]
    norm_num
    rw [List.flatMap_map]
    congr 1
    funext dir
    exact flatMapFiles_filter extract dir
  have hstrict : collectDirsStrict
      (fun signal => mlpExtractFile signal wsM factorM stepM) d.classDirs
      = .error () := collectDirsStrict_error _ _ hbad
  have hstrictR : collectDirsStrict
      (residualExtractFile melDbR wsR stepR scaleR) d.classDirs
      = .error () := collectDirsStrict_error _ _ hbad
  refine ⟨hcatch _ _, hcatch _ _, ?_, ?_⟩
  · simp [mlpLoadData, loadNoCatch, hroot, hstrict]
  · simp [residualLoadData, loadNoCatch, hroot, hstrictR]

/-- C4 witness: one class directory holding a bad file followed by a good
file, at concrete parameters for each loader. -/
theorem per_file_fault_behavior_witness :
    lstmLoadData 2 2 1 ⟨true, [[⟨.error (), 0⟩, ⟨.ok [1, 2, 3], 1⟩]]⟩
        = lstmLoadData 2 2 1
            (keepDecodable ⟨true, [[⟨.error (), 0⟩, ⟨.ok [1, 2, 3], 1⟩]]⟩)
    ∧ mlpLoadData 2 2 1 ⟨true, [[⟨.error (), 0⟩, ⟨.ok [1, 2, 3], 1⟩]]⟩
        = .exn := by
  obtain ⟨-, h2, h3, -⟩ := per_file_fault_behavior
    (fun _ => ⟨0, 0, fun _ _ => 0⟩) (fun _ => ⟨0, 0, fun _ _ => 0⟩)
    2 1 16 16 2 2 1 2 2 1 2 1 80 80
    ⟨true, [[⟨.error (), 0⟩, ⟨.ok [1, 2, 3], 1⟩]]⟩ rfl
    ⟨[⟨.error (), 0⟩, ⟨.ok [1, 2, 3], 1⟩], by simp,
      ⟨.error (), 0⟩, by simp, rfl⟩
  exact ⟨h2, h3⟩

/-- C4 counterexample: the residual loader, on a directory with one bad
file and one good file, raises instead of returning the good file
features. -/
theorem residual_bad_file_counterexample :
    residualLoadData (fun _ => ⟨0, 0, fun _ _ => 0⟩) 2 1 80
      ⟨true, [[⟨.error (), 0⟩, ⟨.ok [1, 2, 3], 1⟩]]⟩ = .exn := by
  rfl

/-! ## Class balancer (claims C5, C10) -/

/-- Membership in a sorted-unique insertion. -/
theorem mem_insertUnique (x a : ℚ) :
    ∀ ys, a ∈ insertUnique x ys ↔ a = x ∨ a ∈ ys
  | [] => by simp [insertUnique]
  | y :: ys => by
    by_cases h1 : x < y
    · simp [insertUnique, h1]
    · by_cases h2 : x = y
      · subst h2
        simp [insertUnique, h1]
      · simp [insertUnique, h1, h2, mem_insertUnique x a ys]
        tauto

/-- The head of `insertUnique x ys` is `x` or the head of `ys`. -/
theorem head?_insertUnique (x : ℚ) :
    ∀ ys, (insertUnique x ys).head? = some x
      ∨ (insertUnique x ys).head? = ys.head?
  | [] => Or.inl rfl
  | y :: ys => by
    by_cases h1 : x < y
    · left
      simp [insertUnique, h1]
    · by_cases h2 : x = y
      · right
        simp [insertUnique, h1, h2]
      · right
        simp [insertUnique, h1, h2]

/-- `insertUnique` preserves strict ascending order. -/
theorem chain'_insertUnique (x : ℚ) :
    ∀ ys, List.Chain' (· < ·) ys → List.Chain' (· < ·) (insertUnique x ys)
  | [], _ => by simp [insertUnique]
  | y :: ys, h => by
    by_cases h1 : x < y
    · rw [insertUnique, if_pos h1, List.chain'_cons]
      exact ⟨h1, h⟩
    · by_cases h2 : x = y
      · rw [insertUnique, if_neg h1, if_pos h2]
        exact h
      · rw [insertUnique, if_neg h1, if_neg h2]
        have hyx : y < x := by
          rcases lt_trichotomy x y with hw | hw | hw
          · exact absurd hw h1
          · exact absurd hw h2
          · exact hw
        rw [List.chain'_cons']
        refine ⟨?_, chain'_insertUnique x ys (List.chain'_cons'.mp h).2⟩
        intro z hz
        rcases head?_insertUnique x ys with he | he
        · rw [he] at hz
          simp at hz
          exact hz ▸ hyx
        · rw [he] at hz
          exact (List.chain'_cons'.mp h).1 z hz

/-- `numpy.unique` returns a strictly ascending list. -/
theorem npUnique_chain' : ∀ ls : List ℚ, List.Chain' (· < ·) (npUnique ls)
  | [] => by simp [npUnique]
  | l :: ls => chain'_insertUnique l (npUnique ls) (npUnique_chain' ls)

/-- `numpy.unique` has exactly the values occurring in the input. -/
theorem mem_npUnique (c : ℚ) : ∀ ls, c ∈ npUnique ls ↔ c ∈ ls
  | [] => by simp [npUnique]
  | l :: ls => by
    rw [show npUnique (l :: ls) = insertUnique l (npUnique ls) from rfl,
      mem_insertUnique, mem_npUnique c ls]
    simp

/-- `numpy.unique` has no duplicates. -/
theorem npUnique_nodup (ls : List ℚ) : (npUnique ls).Nodup := by
  have h := npUnique_chain' ls
  rw [List.chain'_iff_pairwise] at h
  exact h.imp ne_of_lt

/-- Resampling the class-`c` subset of the labels yields `m` copies of
`c`, provided `c` occurs at all. -/
theorem resample_labels_replicate {α : Type} [Inhabited α] (c : ℚ)
    (labels : List ℚ) (hc : c ∈ labels) (m : Nat) (fs : List α) :
    (resample fs (labels.filter (fun l => l = c)) m).2 =
      List.replicate m c := by
  have hcount : 0 < labels.count c := List.count_pos_iff.mpr hc
  rw [resample]
  simp only [List.filter_eq, List.length_replicate]
  rw [show (fun i => (List.replicate (labels.count c) c).getD
      (i % labels.count c) 0) = fun _ => c from funext fun i => by
    simp [List.getD, Nat.mod_lt i hcount]]
  simp [List.map_const']

/-- The label side of `balance_classes`: one block of `max_samples`
copies per distinct class, in ascending class order. -/
theorem balanced_labels_eq {α : Type} [Inhabited α] (features : List α)
    (labels : List ℚ) :
    (balance_classes features labels).2 =
      ((npUnique labels).map
        (fun c => List.replicate (maxSamples labels) c)).flatten := by
  simp only [balance_classes, List.map_map]
  congr 1
  refine List.map_congr_left fun c hc => ?_
  exact resample_labels_replicate c labels ((mem_npUnique c labels).mp hc)
    (maxSamples labels) (maskSelect features labels c)

/-- Counting inside a flatten of per-class replicate blocks. -/
theorem count_flatten_replicate (m : Nat) (c : ℚ) :
    ∀ us : List ℚ, us.Nodup → c ∈ us →
      ((us.map (fun u => List.replicate m u)).flatten).count c = m
  | [], _, hc => by simp at hc
  | u :: us, hnd, hc => by
    rw [List.map_cons, List.flatten_cons, List.count_append]
    rcases List.mem_cons.mp hc with rfl | hm
    · have hnotin : c ∉ us := (List.nodup_cons.mp hnd).1
      have h2 : ((us.map (fun u => List.replicate m u)).flatten).count c
          = 0 := by
        rw [List.count_eq_zero]
        intro hmem
        rw [List.mem_flatten] at hmem
        obtain ⟨l, hl, hcl⟩ := hmem
        rw [List.mem_map] at hl
        obtain ⟨v, hv, rfl⟩ := hl
        exact hnotin ((List.eq_of_mem_replicate hcl) ▸ hv)
      rw [h2, List.count_replicate]
      simp
    · have hne : c ≠ u := fun e => (List.nodup_cons.mp hnd).1 (e ▸ hm)
      rw [count_flatten_replicate m c us (List.nodup_cons.mp hnd).2 hm,
        List.count_replicate]
      have : (u == c) = false := by
        simp [hne.symm]
      rw [this]
      simp

/-- Length of a flatten whose blocks all have length `m`. -/
theorem length_flatten_const {β γ : Type} (m : Nat) (g : β → List γ) :
    ∀ us : List β, (∀ u ∈ us, (g u).length = m) →
      ((us.map g).flatten).length = us.length * m
  | [], _ => by simp
  | u :: us, h => by
    rw [List.map_cons, List.flatten_cons, List.length_append,
      h u (by simp), length_flatten_const m g us
        (fun v hv => h v (List.mem_cons_of_mem u hv)), List.length_cons]
    ring

/-- C5 (confirmed).  `balance_classes` gives every distinct label value
exactly `max_samples` occurrences — the largest per-class count of the
input — so the output has `(number of distinct labels) · max_samples`
rows on both the feature and the label side. -/
theorem balance_classes_equalizes {α : Type} [Inhabited α]
    (features : List α) (labels : List ℚ) (hne : labels ≠ []) :
    (∀ c ∈ labels,
      ((balance_classes features labels).2).count c = maxSamples labels)
    ∧ ((balance_classes features labels).2).length =
        (npUnique labels).length * maxSamples labels
    ∧ ((balance_classes features labels).1).length =
        (npUnique labels).length * maxSamples labels := by
  refine ⟨?_, ?_, ?_⟩
  · intro c hc
    rw [balanced_labels_eq]
    exact count_flatten_replicate (maxSamples labels) c (npUnique labels)
      (npUnique_nodup labels) ((mem_npUnique c labels).mpr hc)
  · rw [balanced_labels_eq]
    exact length_flatten_const (maxSamples labels) _ (npUnique labels)
      (fun u _ => List.length_replicate ..)
  · simp only [balance_classes, List.map_map]
    refine length_flatten_const (maxSamples labels) _ (npUnique labels) ?_
    intro u hu
    simp [Function.comp, resample]

/-- C5 witness: input class counts `{0: 3, 1: 7}` balance to
`{0: 7, 1: 7}`, total size 14. -/
theorem balance_classes_equalizes_witness :
    ((balance_classes (List.range 10)
        ([0, 0, 0, 1, 1, 1, 1, 1, 1, 1] : List ℚ)).2).count 0 = 7
    ∧ ((balance_classes (List.range 10)
        ([0, 0, 0, 1, 1, 1, 1, 1, 1, 1] : List ℚ)).2).count 1 = 7
    ∧ ((balance_classes (List.range 10)
        ([0, 0, 0, 1, 1, 1, 1, 1, 1, 1] : List ℚ)).2).length = 14 := by
  obtain ⟨hc, hl, -⟩ := balance_classes_equalizes (List.range 10)
    ([0, 0, 0, 1, 1, 1, 1, 1, 1, 1] : List ℚ) (by simp)
  have hmax : maxSamples ([0, 0, 0, 1, 1, 1, 1, 1, 1, 1] : List ℚ) = 7 := by
    rfl
  have hu : (npUnique ([0, 0, 0, 1, 1, 1, 1, 1, 1, 1] : List ℚ)).length
      = 2 := by
    rfl
  refine ⟨?_, ?_, ?_⟩
  · have h := hc 0 (by norm_num)
    rwa [hmax] at h
  · have h := hc 1 (by norm_num)
    rwa [hmax] at h
  · rw [hl, hmax, hu]

/-- C10 (confirmed).  The balanced output is grouped contiguously by
class: the label array is the concatenation of one `max_samples` block
per distinct label in ascending order (hence sorted, never interleaved),
and the feature array is the matching concatenation of the per-class
resampled blocks. -/
theorem balance_classes_grouped_sorted {α : Type} [Inhabited α]
    (features : List α) (labels : List ℚ) :
    (balance_classes features labels).2 =
      ((npUnique labels).map
        (fun c => List.replicate (maxSamples labels) c)).flatten
    ∧ List.Sorted (· ≤ ·) ((balance_classes features labels).2)
    ∧ (balance_classes features labels).1 =
      ((npUnique labels).map (fun c =>
        (resample (maskSelect features labels c)
          (labels.filter (fun l => l = c)) (maxSamples labels)).1)).flatten := by
  refine ⟨balanced_labels_eq features labels, ?_, ?_⟩
  · rw [balanced_labels_eq, List.Sorted, List.pairwise_flatten]
    constructor
    · intro l hl
      rw [List.mem_map] at hl
      obtain ⟨u, -, rfl⟩ := hl
      exact List.pairwise_replicate.mpr (Or.inr (le_refl u))
    · rw [List.pairwise_map]
      have h := npUnique_chain' labels
      rw [List.chain'_iff_pairwise] at h
      refine h.imp fun {a b} hab => ?_
      intro x hx y hy
      rw [List.eq_of_mem_replicate hx, List.eq_of_mem_replicate hy]
      exact le_of_lt hab
  · simp only [balance_classes, List.map_map]
    rfl

/-! ## Patch splitting (claim C6) -/

/-- Length of the row-major double loop. -/
theorem length_flatMapRange {α : Type} (nX nY : Nat) (f : Nat → Nat → α) :
    ((List.range nX).flatMap (fun i => (List.range nY).map (f i))).length
      = nX * nY := by
  rw [List.length_flatMap]
  rw [List.map_congr_left (fun i _ => by simp :
    ∀ i ∈ List.range nX,
      (List.length ∘ fun j => List.map (f j) (List.range nY)) i
        = (fun _ => nY) i)]
  rw [List.map_const', List.sum_replicate, List.length_range, smul_eq_mul]

/-- Element `i * nY + j` of the row-major double loop is the `(i, j)`
entry. -/
theorem getD_flatMapRange {α : Type} [Inhabited α] (nY : Nat)
    (f : Nat → Nat → α) :
    ∀ nX i j, i < nX → j < nY →
      ((List.range nX).flatMap
        (fun a => (List.range nY).map (f a))).getD (i * nY + j) default
        = f i j := by
  intro nX
  induction nX with
  | zero =>
    intro i j hi hj
    omega
  | succ n ih =>
    intro i j hi hj
    rw [List.range_succ, List.flatMap_append]
    by_cases hin : i < n
    · rw [List.getD_append _ _ _ _
        (by rw [length_flatMapRange]; exact (by nlinarith : i * nY + j < n * nY))]
      exact ih i j hin hj
    · have hieq : i = n := by omega
      subst hieq
      rw [List.getD_append_right _ _ _ _
        (by rw [length_flatMapRange]; exact Nat.le_add_right _ _)]
      rw [length_flatMapRange]
      have hoff : i * nY + j - i * nY = j := by omega
      rw [hoff]
      simp [List.getD, List.getElem?_map, List.getElem?_range hj]

/-- C6 (confirmed).  With patch size `(16, 16)`: the spectrogram is
zero-padded up to the next multiples of 16 in both axes, split into
`⌈h/16⌉ · ⌈w/16⌉` patches of shape `(16, 16)` in row-major order,
original entries are preserved at their positions, and every entry of a
padded region is zero. -/
theorem split_patches_16_spec (m : NpMat) :
    (padded_spectrogram 16 16 m).h = 16 * ((m.h + 15) / 16)
    ∧ (padded_spectrogram 16 16 m).w = 16 * ((m.w + 15) / 16)
    ∧ (split_spectrogram_into_patches 16 16 m).length
        = ((m.h + 15) / 16) * ((m.w + 15) / 16)
    ∧ (∀ p ∈ split_spectrogram_into_patches 16 16 m, p.h = 16 ∧ p.w = 16)
    ∧ (∀ r c, r < m.h → c < m.w →
        ((split_spectrogram_into_patches 16 16 m).getD
            (r / 16 * ((m.w + 15) / 16) + c / 16) default).val
          (r % 16) (c % 16) = m.val r c)
    ∧ (∀ i j a b, i < (m.h + 15) / 16 → j < (m.w + 15) / 16 →
        m.h ≤ i * 16 + a ∨ m.w ≤ j * 16 + b →
        ((split_spectrogram_into_patches 16 16 m).getD
            (i * ((m.w + 15) / 16) + j) default).val a b = 0) := by
  have hH : (padded_spectrogram 16 16 m).h = 16 * ((m.h + 15) / 16) := by
    simp only [padded_spectrogram, NpMat.padZero]
    omega
  have hW : (padded_spectrogram 16 16 m).w = 16 * ((m.w + 15) / 16) := by
    simp only [padded_spectrogram, NpMat.padZero]
    omega
  have hX : (padded_spectrogram 16 16 m).h / 16 = (m.h + 15) / 16 := by
    rw [hH]
    omega
  have hY : (padded_spectrogram 16 16 m).w / 16 = (m.w + 15) / 16 := by
    rw [hW]
    omega
  have hsplit : split_spectrogram_into_patches 16 16 m =
      (List.range ((m.h + 15) / 16)).flatMap (fun i =>
        (List.range ((m.w + 15) / 16)).map (fun j =>
          ⟨16, 16, fun a b =>
            (padded_spectrogram 16 16 m).val (i * 16 + a) (j * 16 + b)⟩)) := by
    rw [split_spectrogram_into_patches]
    rw [hX, hY]
  have hpadval : ∀ x y, (padded_spectrogram 16 16 m).val x y
      = if x < m.h ∧ y < m.w then m.val x y else 0 := by
    intro x y
    rfl
  refine ⟨hH, hW, ?_, ?_, ?_, ?_⟩
  · rw [hsplit, length_flatMapRange]
  · intro p hp
    rw [hsplit] at hp
    rw [List.mem_flatMap] at hp
    obtain ⟨i, -, hp⟩ := hp
    rw [List.mem_map] at hp
    obtain ⟨j, -, rfl⟩ := hp
    exact ⟨rfl, rfl⟩
  · intro r c hr hc
    rw [hsplit, getD_flatMapRange _ _ _ (r / 16) (c / 16)
      (by omega) (by omega)]
    have e1 : r / 16 * 16 + r % 16 = r := by omega
    have e2 : c / 16 * 16 + c % 16 = c := by omega
    show (padded_spectrogram 16 16 m).val (r / 16 * 16 + r % 16)
      (c / 16 * 16 + c % 16) = m.val r c
    rw [e1, e2, hpadval, if_pos ⟨hr, hc⟩]
  · intro i j a b hi hj hout
    rw [hsplit, getD_flatMapRange _ _ _ i j hi hj]
    show (padded_spectrogram 16 16 m).val (i * 16 + a) (j * 16 + b) = 0
    rw [hpadval, if_neg]
    omega

/-- C6 witness: a `17 × 31` spectrogram with distinct nonzero entries
pads to `32 × 32` and yields 4 patches of shape `(16, 16)`; the last
patch holds the original entry at `(16, 16)` in its corner and zeros in
the padded region. -/
theorem split_patches_16_spec_witness :
    (padded_spectrogram 16 16 ⟨17, 31, fun i j => (i * 31 + j + 1 : ℚ)⟩).h
        = 32
    ∧ (padded_spectrogram 16 16 ⟨17, 31, fun i j => (i * 31 + j + 1 : ℚ)⟩).w
        = 32
    ∧ (split_spectrogram_into_patches 16 16
        ⟨17, 31, fun i j => (i * 31 + j + 1 : ℚ)⟩).length = 4
    ∧ ((split_spectrogram_into_patches 16 16
        ⟨17, 31, fun i j => (i * 31 + j + 1 : ℚ)⟩).getD 3 default).val 0 0
        = 513
    ∧ ((split_spectrogram_into_patches 16 16
        ⟨17, 31, fun i j => (i * 31 + j + 1 : ℚ)⟩).getD 3 default).val 1 0
        = 0 := by
  obtain ⟨h1, h2, h3, -, h5, h6⟩ :=
    split_patches_16_spec ⟨17, 31, fun i j => (i * 31 + j + 1 : ℚ)⟩
  refine ⟨by rw [h1]; norm_num, by rw [h2]; norm_num, by rw [h3]; norm_num,
    ?_, ?_⟩
  · have h := h5 16 16 (by norm_num) (by norm_num)
    norm_num at h
    exact h
  · have h := h6 1 1 1 0 (by norm_num) (by norm_num) (by norm_num)
    norm_num at h
    exact h

/-! ## Holdout test partition is never consumed (claim C9) -/

/-- C9 (confirmed).  The report returned by `train()` does not depend on
the held-out test partition: `features_test`/`labels_test` are bound by
the `train_test_split` call and never read again, so two runs whose
post-split states differ only in the test partition — for any model
family behaviour `fitPredict`, any fold splitter, any metrics calculator
and any `numpy.std` — return identical mean metrics, history,
confusion-matrix report and probability report. -/
theorem train_report_ignores_test_partition {F H : Type} [Inhabited F]
    (kfold : List F → List ℚ → List (List Nat × List Nat))
    (fitPredict : List F → List ℚ → List F → List ℚ → List (List ℚ) × H)
    (calcMetrics : List Nat → List ℚ → FoldMetrics × List (List ℚ))
    (stdFn : List ℚ → ℚ)
    (featuresTrainVal : List F) (labelsTrainVal : List ℚ)
    (featuresTest1 featuresTest2 : List F)
    (labelsTest1 labelsTest2 : List ℚ) :
    trainAfterSplit kfold fitPredict calcMetrics stdFn
        featuresTrainVal labelsTrainVal featuresTest1 labelsTest1
      = trainAfterSplit kfold fitPredict calcMetrics stdFn
        featuresTrainVal labelsTrainVal featuresTest2 labelsTest2 := by
  rfl

end Mosq
